import Mathlib

/-!
Shallow embedding of the `NDArrayBackedExtensionArray` mixin from
`pandas/core/arrays/_mixins.py`: an extension array backed by a single
rank-1 or rank-2 numpy buffer, with all dtype-specific behaviour
delegated to per-concrete-type validation hooks.

Machine integers and element values are modelled abstractly: the buffer
element type `α` carries a decidable equality and a value-level
missing-marker predicate `isNA` (standing for NaN / NaT detection on raw
buffer values), and the domain-scalar type `v` is the type of boxed
values a caller sees.
-/

namespace Pandas

/-- Raw backing buffer (the `_ndarray` attribute): rank 1, or rank 2
represented as a list of rows in row-major order. -/
inductive NDArray (α : Type) where
  | one (xs : List α)
  | two (rows : List (List α))

/-- Buffer shape, as in `ndarray.shape` (rank 2 buffers are rectangular in
numpy; the column count is read off the first row). -/
def NDArray.shape {α : Type} : NDArray α → List Nat
  | .one xs => [xs.length]
  | .two rows => [rows.length, (rows.headD []).length]

/-- Element-wise NaN-equivalent comparison used by
`pandas.core.dtypes.missing.array_equivalent`: two missing markers at the
same position compare equal, otherwise ordinary value equality. -/
def elemEquiv {α : Type} [DecidableEq α] (isNA : α → Bool) (x y : α) : Bool :=
  (isNA x && isNA y) || decide (x = y)

/-- NaN-equivalent comparison of two rank-1 buffers: lengths must agree and
elements compare under `elemEquiv`. -/
def listEquiv {α : Type} [DecidableEq α] (isNA : α → Bool) : List α → List α → Bool
  | [], [] => true
  | x :: xs, y :: ys => elemEquiv isNA x y && listEquiv isNA xs ys
  | _, _ => false

/-- Row-wise NaN-equivalent comparison of two rank-2 buffers. -/
def rowsEquiv {α : Type} [DecidableEq α] (isNA : α → Bool) :
    List (List α) → List (List α) → Bool
  | [], [] => true
  | r :: rs, s :: ss => listEquiv isNA r s && rowsEquiv isNA rs ss
  | _, _ => false

/-- `array_equivalent` on whole buffers: shapes (ranks and lengths) must
agree, and elements are compared with the NaN-equivalent rule. -/
def arrayEquivalent {α : Type} [DecidableEq α] (isNA : α → Bool) :
    NDArray α → NDArray α → Bool
  | .one xs, .one ys => listEquiv isNA xs ys
  | .two xss, .two yss => rowsEquiv isNA xss yss
  | _, _ => false

/-- Shallow embedding of an `NDArrayBackedExtensionArray` instance:
`typeId` stands for the concrete Python class identity (the
`type(self) is type(other)` check), `dtypeStr` for `str(self.dtype)`,
the three hook fields for the per-dtype abstract methods `_box_func`,
`_validate_fill_value` and `_validate_setitem_value` (a hook returns
`Except.error` where the Python hook raises `TypeError`), and `ndarray`
for the single backing buffer. -/
structure NDArrayBackedExtensionArray (v α : Type) where
  typeId : Nat
  dtypeStr : String
  box_func : α → v
  validate_fill_value : v → Except String α
  validate_setitem_value : v → Except String α
  ndarray : NDArray α

variable {v α : Type}

/-- Modelled from the spec: `_from_backing_data` is abstract in the mixin;
per its documented contract ("Construct a new ExtensionArray with `arr` as
its `_ndarray`", same concrete type, must round-trip), a conforming
concrete implementation preserves the concrete type and its hooks and
installs the given buffer. -/
def NDArrayBackedExtensionArray.from_backing_data
    (a : NDArrayBackedExtensionArray v α) (arr : NDArray α) :
    NDArrayBackedExtensionArray v α :=
  { a with ndarray := arr }

/-- `equals` from the mixin: `False` unless the concrete types match,
`False` unless the dtypes match, otherwise `array_equivalent` of the two
backing buffers. -/
def NDArrayBackedExtensionArray.equals [DecidableEq α] (isNA : α → Bool)
    (a b : NDArrayBackedExtensionArray v α) : Bool :=
  if a.typeId ≠ b.typeId then false
  else if a.dtypeStr ≠ b.dtypeStr then false
  else arrayEquivalent isNA a.ndarray b.ndarray

/-- Modelled from the spec: the gather-with-fill behaviour of the external
primitive `pandas.core.algorithms.take` (not under `src/`) when
`allow_fill=True`: the designated fill sentinel index `-1` yields the
fill value, any other index must lie in `[0, n)` and gathers that
element, and an out-of-range non-fill index raises an index error. -/
def gatherFill {β : Type} (xs : List β) (fill : β) : List Int → Except String (List β)
  | [] => .ok []
  | i :: rest =>
    if i = -1 then
      match gatherFill xs fill rest with
      | .error e => .error e
      | .ok ys => .ok (fill :: ys)
    else if h : 0 ≤ i ∧ i < (xs.length : Int) then
      match gatherFill xs fill rest with
      | .error e => .error e
      | .ok ys => .ok (xs.get ⟨i.toNat, by omega⟩ :: ys)
    else .error "IndexError"

/-- Modelled from the spec: the gather behaviour of the external primitive
`pandas.core.algorithms.take` (not under `src/`) when `allow_fill=False`:
negative indices follow ordinary reverse-indexing semantics (index `-k`
means `n - k`), and an out-of-range index raises an index error; no fill
value is consulted. -/
def gatherNoFill {β : Type} (xs : List β) : List Int → Except String (List β)
  | [] => .ok []
  | i :: rest =>
    let j : Int := if i < 0 then i + xs.length else i
    if h : 0 ≤ j ∧ j < (xs.length : Int) then
      match gatherNoFill xs rest with
      | .error e => .error e
      | .ok ys => .ok (xs.get ⟨j.toNat, by omega⟩ :: ys)
    else .error "IndexError"

/-- `take` from the mixin: when `allow_fill` is true the fill value is
first validated through `_validate_fill_value` (propagating its type
error), then the gather primitive runs with the fill sentinel enabled;
when `allow_fill` is false the hook is never consulted and the gather
primitive runs with reverse indexing. Modelled at `axis = 0`; on a
rank-2 buffer the gather acts on rows, a fill filling a whole row. -/
def NDArrayBackedExtensionArray.take (a : NDArrayBackedExtensionArray v α)
    (indices : List Int) (allow_fill : Bool) (fill_value : v) :
    Except String (NDArrayBackedExtensionArray v α) :=
  if allow_fill then
    match a.validate_fill_value fill_value with
    | .error e => .error e
    | .ok fv =>
      match a.ndarray with
      | .one xs =>
        match gatherFill xs fv indices with
        | .error e => .error e
        | .ok nd => .ok (a.from_backing_data (.one nd))
      | .two rows =>
        match gatherFill rows (List.replicate (rows.headD []).length fv) indices with
        | .error e => .error e
        | .ok nd => .ok (a.from_backing_data (.two nd))
  else
    match a.ndarray with
    | .one xs =>
      match gatherNoFill xs indices with
      | .error e => .error e
      | .ok nd => .ok (a.from_backing_data (.one nd))
    | .two rows =>
      match gatherNoFill rows indices with
      | .error e => .error e
      | .ok nd => .ok (a.from_backing_data (.two nd))

/-- First-occurrence deduplication, modelling the set
`{str(x.dtype) for x in to_concat}` as the list of distinct values in
order of first appearance. -/
def firstDedup {β : Type} [DecidableEq β] : List β → List β
  | [] => []
  | x :: xs => x :: (firstDedup xs).filter (fun y => y ≠ x)

/-- True exactly on rank-1 buffers. -/
def NDArray.isRank1 {γ : Type} : NDArray γ → Bool
  | .one _ => true
  | .two _ => false

/-- The element list of a rank-1 buffer (junk on rank-2, only read behind
an `isRank1` guard). -/
def NDArray.rank1Data {γ : Type} : NDArray γ → List γ
  | .one xs => xs
  | .two _ => []

/-- The row list of a rank-2 buffer (junk on rank-1, only read behind a
guard). -/
def NDArray.rank2Data {γ : Type} : NDArray γ → List (List γ)
  | .one _ => []
  | .two rows => rows

/-- Modelled from the spec: `np.concatenate` along axis 0 on a list of
buffers of equal rank: rank-1 buffers chain their elements, rank-2
buffers chain their rows; mixed ranks raise a dimension error. -/
def concatBufs (bufs : List (NDArray α)) : Except String (NDArray α) :=
  if bufs.all NDArray.isRank1 then
    .ok (.one (bufs.map NDArray.rank1Data).flatten)
  else if bufs.all (fun b => !b.isRank1) then
    .ok (.two (bufs.map NDArray.rank2Data).flatten)
  else .error "all the input arrays must have the same number of dimensions"

/-- Failure modes of `_concat_same_type`: the dtype-mismatch `ValueError`
carries the set of distinct dtype identity strings observed. -/
inductive ConcatError where
  | dtypeMismatch (dtypes : List String)
  | dimMismatch

/-- `_concat_same_type` from the mixin: collect the set of distinct dtype
identity strings of the parts; unless there is exactly one, raise the
dtype-mismatch error carrying that set; otherwise concatenate the raw
buffers along the axis (modelled at `axis = 0`) and wrap the result via
the first part's factory method. -/
def concat_same_type :
    List (NDArrayBackedExtensionArray v α) →
      Except ConcatError (NDArrayBackedExtensionArray v α)
  | [] => .error (.dtypeMismatch [])
  | p :: rest =>
    let dtypes := firstDedup ((p :: rest).map NDArrayBackedExtensionArray.dtypeStr)
    if dtypes.length = 1 then
      match concatBufs ((p :: rest).map NDArrayBackedExtensionArray.ndarray) with
      | .ok nb => .ok (p.from_backing_data nb)
      | .error _ => .error .dimMismatch
    else .error (.dtypeMismatch dtypes)

/-- Whether any element of the buffer satisfies `p` (used for the
`mask.any()` test on the missing-value mask `self.isna()`). -/
def NDArray.anyElem {γ : Type} (p : γ → Bool) : NDArray γ → Bool
  | .one xs => xs.any p
  | .two rows => rows.any (fun r => r.any p)

/-- Scatter-assignment of `x` at the positions where `p` holds, modelling
`new_values[mask] = value` on the copied buffer. -/
def NDArray.fillWhere {γ : Type} (p : γ → Bool) (x : γ) : NDArray γ → NDArray γ
  | .one xs => .one (xs.map fun e => if p e then x else e)
  | .two rows => .two (rows.map fun r => r.map fun e => if p e then x else e)

/-- `fillna` from the mixin, modelled at the `fillna(value=value)` call
shape (scalar `value`, `method=None`, which `validate_fillna_kwargs`
accepts): the missing mask `self.isna()` is computed first; if it has any
`True` entry, a copy is taken and the value is mask-written through
`__setitem__`, whose `_validate_setitem_value` hook validates it; if the
mask has no `True` entry, the value is still validated through
`_validate_setitem_value` and an unmutated copy is returned. -/
def NDArrayBackedExtensionArray.fillna (isNA : α → Bool)
    (a : NDArrayBackedExtensionArray v α) (value : v) :
    Except String (NDArrayBackedExtensionArray v α) :=
  if a.ndarray.anyElem isNA then
    match a.validate_setitem_value value with
    | .error e => .error e
    | .ok x => .ok { a with ndarray := a.ndarray.fillWhere isNA x }
  else
    match a.validate_setitem_value value with
    | .error e => .error e
    | .ok _ => .ok { a with ndarray := a.ndarray }

/-- Result of the integer-key fast path of `__getitem__`: either a boxed
domain scalar or a wrapped sub-array. -/
inductive GetItemResult (v α : Type) where
  | scalar (x : v)
  | subarray (b : NDArrayBackedExtensionArray v α)

/-- Single-element numpy indexing `arr[i]`: negative indices wrap around
(index `-k` means `n - k`), out-of-range indices raise an index error. -/
def getIntWrap {β : Type} (xs : List β) (i : Int) : Except String β :=
  let j : Int := if i < 0 then i + xs.length else i
  if h : 0 ≤ j ∧ j < (xs.length : Int) then .ok (xs.get ⟨j.toNat, by omega⟩)
  else .error "IndexError"

/-- The integer-key fast path of `__getitem__` from the mixin: on a rank-1
buffer the raw element is read directly from the buffer and boxed via
`_box_func` (no sub-array is materialized); on a rank-2 buffer the
selected row is wrapped as a rank-1 array via the factory method. -/
def NDArrayBackedExtensionArray.getitem_int
    (a : NDArrayBackedExtensionArray v α) (key : Int) :
    Except String (GetItemResult v α) :=
  match a.ndarray with
  | .one xs =>
    match getIntWrap xs key with
    | .error e => .error e
    | .ok x => .ok (.scalar (a.box_func x))
  | .two rows =>
    match getIntWrap rows key with
    | .error e => .error e
    | .ok r => .ok (.subarray (a.from_backing_data (.one r)))

/-- Modelled from the spec: the axis-aware shift-with-fill primitive
(`pandas.core.array_algos.transforms.shift`, not under `src/`): elements
displaced by `periods` positions toward higher indices (toward lower
indices for negative `periods`), vacated positions filled with the fill
value. -/
def shiftPrim {β : Type} (xs : List β) (periods : Int) (fill : β) : List β :=
  if 0 ≤ periods then
    List.replicate (min periods.toNat xs.length) fill ++
      xs.take (xs.length - min periods.toNat xs.length)
  else
    xs.drop (min (-periods).toNat xs.length) ++
      List.replicate (min (-periods).toNat xs.length) fill

/-- `shift` from the mixin: the fill value is validated through
`_validate_shift_value`, which delegates to `_validate_fill_value`
(propagating its type error), then the shift primitive displaces the
buffer and the result is wrapped via the factory method. Modelled at
`axis = 0`; on a rank-2 buffer whole rows are displaced, a vacated row
filled with the fill value. -/
def NDArrayBackedExtensionArray.shift (a : NDArrayBackedExtensionArray v α)
    (periods : Int) (fill_value : v) :
    Except String (NDArrayBackedExtensionArray v α) :=
  match a.validate_fill_value fill_value with
  | .error e => .error e
  | .ok fv =>
    match a.ndarray with
    | .one xs => .ok (a.from_backing_data (.one (shiftPrim xs periods fv)))
    | .two rows =>
      .ok (a.from_backing_data
        (.two (shiftPrim rows periods (List.replicate (rows.headD []).length fv))))

/-- Modelled from the spec: the value-counting primitive
(`pandas.core.algorithms.value_counts`, not under `src/`) at
`sort=False`: one (value, count) pair per distinct value of the input,
in discovery (first-seen) order, not sorted by value; with `dropna` the
missing markers are excluded from the counting. -/
def valueCountPrim [DecidableEq α] (isNA : α → Bool) (xs : List α)
    (dropna : Bool) : List (α × Nat) :=
  let ys := if dropna then xs.filter (fun x => !isNA x) else xs
  (firstDedup ys).map (fun x => (x, ys.count x))

/-- `value_counts` from the mixin: raises a not-implemented error unless
the array is rank 1; with `dropna` the missing entries are first sliced
away (`self[~self.isna()]._ndarray`), then the counting primitive runs
with `sort=False`, and the distinct values are wrapped into an array of
the same concrete type via the factory method, paired with the counts. -/
def NDArrayBackedExtensionArray.value_counts [DecidableEq α] (isNA : α → Bool)
    (a : NDArrayBackedExtensionArray v α) (dropna : Bool) :
    Except String (NDArrayBackedExtensionArray v α × List Nat) :=
  match a.ndarray with
  | .two _ => .error "NotImplementedError"
  | .one xs =>
    let values := if dropna then xs.filter (fun x => !isNA x) else xs
    let pairs := valueCountPrim isNA values dropna
    .ok (a.from_backing_data (.one (pairs.map Prod.fst)), pairs.map Prod.snd)

/-- `__len__` from the mixin: `self.shape[0]`. -/
def NDArrayBackedExtensionArray.len (a : NDArrayBackedExtensionArray v α) : Nat :=
  a.ndarray.shape.headD 0

/-- `size` from the mixin: `np.prod(self.shape)`, the total element
count. -/
def NDArrayBackedExtensionArray.size (a : NDArrayBackedExtensionArray v α) : Nat :=
  a.ndarray.shape.prod

/-- `ndim` from the mixin: `len(self.shape)`. -/
def NDArrayBackedExtensionArray.ndim (a : NDArrayBackedExtensionArray v α) : Nat :=
  a.ndarray.shape.length

/-- A concrete integer-backed array used to evaluate the theorems on
explicit inputs: fill values below 100 are representable, larger ones
raise the fill-value hook's type error; setitem accepts everything. -/
def mkInt (dt : String) (buf : NDArray Int) : NDArrayBackedExtensionArray Int Int :=
  { typeId := 0
    dtypeStr := dt
    box_func := fun x => x
    validate_fill_value := fun w => if w < 100 then .ok w else .error "TypeError"
    validate_setitem_value := fun w => .ok w
    ndarray := buf }

/-- Missing-marker predicate for the concrete examples: `-1` plays the
missing marker. -/
def exIsNA : Int → Bool := fun x => x == -1

/-- Missing-marker predicate treating every negative value as a missing
marker (so two distinct markers can sit at the same position). -/
def exNegNA : Int → Bool := fun x => decide (x < 0)

/-- Missing-marker predicate for a dtype with no missing markers. -/
def exNoNA : Int → Bool := fun _ => false

/-- A concrete instance whose fill-value hook rejects every value while
its setitem hook accepts every value, with a buffer free of missing
markers. -/
def exBadFillHook : NDArrayBackedExtensionArray Int Int :=
  { typeId := 0
    dtypeStr := "int64"
    box_func := fun x => x
    validate_fill_value := fun _ => .error "TypeError: invalid fill"
    validate_setitem_value := fun w => .ok w
    ndarray := .one [1, 2] }

/-- A concrete rank-2 instance of shape (2, 1). -/
def ex2D : NDArrayBackedExtensionArray Int Int :=
  mkInt "int64" (.two [[5], [6]])

theorem listEquiv_refl [DecidableEq α] (isNA : α → Bool) :
    ∀ xs : List α, listEquiv isNA xs xs = true := by
  intro xs
  induction xs with
  | nil => rfl
  | cons x xs ih => simp [listEquiv, elemEquiv, ih]

theorem rowsEquiv_refl [DecidableEq α] (isNA : α → Bool) :
    ∀ rs : List (List α), rowsEquiv isNA rs rs = true := by
  intro rs
  induction rs with
  | nil => rfl
  | cons r rs ih => simp [rowsEquiv, listEquiv_refl, ih]

theorem arrayEquivalent_refl [DecidableEq α] (isNA : α → Bool)
    (b : NDArray α) : arrayEquivalent isNA b b = true := by
  cases b with
  | one xs => simpa [arrayEquivalent] using listEquiv_refl isNA xs
  | two rs => simpa [arrayEquivalent] using rowsEquiv_refl isNA rs

theorem elemEquiv_eq_true_iff [DecidableEq α] (isNA : α → Bool) (x y : α) :
    elemEquiv isNA x y = true ↔ (isNA x = true ∧ isNA y = true) ∨ x = y := by
  simp [elemEquiv]

theorem listEquiv_eq_true_iff [DecidableEq α] (isNA : α → Bool) :
    ∀ xs ys : List α, listEquiv isNA xs ys = true ↔
      xs.length = ys.length ∧
        ∀ i (hx : i < xs.length) (hy : i < ys.length),
          (isNA (xs.get ⟨i, hx⟩) = true ∧ isNA (ys.get ⟨i, hy⟩) = true) ∨
            xs.get ⟨i, hx⟩ = ys.get ⟨i, hy⟩ := by
  intro xs
  induction xs with
  | nil =>
    intro ys
    cases ys with
    | nil => simp [listEquiv]
    | cons y ys => simp [listEquiv]
  | cons x xs ih =>
    intro ys
    cases ys with
    | nil => simp [listEquiv]
    | cons y ys =>
      simp only [listEquiv, Bool.and_eq_true, ih, List.length_cons]
      constructor
      · rintro ⟨he, hlen, hrest⟩
        refine ⟨by omega, ?_⟩
        intro i hx hy
        match i with
        | 0 =>
          simpa [List.get] using (elemEquiv_eq_true_iff isNA x y).mp he
        | Nat.succ j =>
          exact hrest j (by omega) (by omega)
      · rintro ⟨hlen, hall⟩
        refine ⟨?_, by omega, ?_⟩
        · exact (elemEquiv_eq_true_iff isNA x y).mpr
            (hall 0 (by omega) (by omega))
        · intro i hx hy
          exact hall (i + 1) (by omega) (by omega)

theorem gatherFill_ok {β : Type} (xs : List β) (F : β) :
    ∀ idx : List Int, (∀ i ∈ idx, i = -1 ∨ (0 ≤ i ∧ i < (xs.length : Int))) →
      ∃ ys, gatherFill xs F idx = .ok ys ∧ ys.length = idx.length ∧
        ∀ (k : Nat) (i : Int), idx[k]? = some i →
          (i = -1 → ys[k]? = some F) ∧ (0 ≤ i → ys[k]? = xs[i.toNat]?) := by
  intro idx
  induction idx with
  | nil =>
    intro _
    exact ⟨[], rfl, rfl, by intro k i h; simp at h⟩
  | cons i rest ih =>
    intro hvalid
    obtain ⟨ys, hys, hlen, hget⟩ := ih (fun j hj => hvalid j (List.mem_cons_of_mem i hj))
    rcases hvalid i (List.mem_cons_self i rest) with hi | hi
    · refine ⟨F :: ys, ?_, by simp [hlen], ?_⟩
      · simp [gatherFill, hi, hys]
      · intro k j hk
        match k with
        | 0 =>
          simp only [List.getElem?_cons_zero, Option.some_inj] at hk
          subst hk
          constructor
          · intro _; simp
          · intro h0; omega
        | Nat.succ m =>
          simp only [List.getElem?_cons_succ] at hk ⊢
          exact hget m j hk
    · have hne : ¬(i = -1) := by omega
      refine ⟨xs.get ⟨i.toNat, by omega⟩ :: ys, ?_, by simp [hlen], ?_⟩
      · simp only [gatherFill, if_neg hne, dif_pos hi, hys]
      · intro k j hk
        match k with
        | 0 =>
          simp only [List.getElem?_cons_zero, Option.some_inj] at hk
          subst hk
          constructor
          · intro h; exact absurd h hne
          · intro _
            rw [List.getElem?_cons_zero, List.getElem?_eq_getElem (by omega)]
            simp [List.get_eq_getElem]
        | Nat.succ m =>
          simp only [List.getElem?_cons_succ] at hk ⊢
          exact hget m j hk

/-- C3: `take`: with `allow_fill` true a failing fill-value hook aborts the
call with that type error before any gather (even on out-of-range
indices); with `allow_fill` true and a validated fill value `F`, sentinel
`-1` positions receive `F` and other valid positions gather the buffer
element; with `allow_fill` false the fill-value hook is never consulted
(the result buffer is independent of the hook and of `fill_value`), and
`take [-1]` returns the last element by reverse indexing rather than a
fill. -/
theorem take_spec [DecidableEq α] (a : NDArrayBackedExtensionArray v α)
    (xs : List α) (hbuf : a.ndarray = .one xs) (fv : v) :
    (∀ e idx, a.validate_fill_value fv = .error e →
      a.take idx true fv = .error e) ∧
    (∀ F idx, a.validate_fill_value fv = .ok F →
      (∀ i ∈ idx, i = -1 ∨ (0 ≤ i ∧ i < (xs.length : Int))) →
      ∃ ys, a.take idx true fv = .ok (a.from_backing_data (.one ys)) ∧
        ys.length = idx.length ∧
        ∀ (k : Nat) (i : Int), idx[k]? = some i →
          (i = -1 → ys[k]? = some F) ∧ (0 ≤ i → ys[k]? = xs[i.toNat]?)) ∧
    (∀ f fv2 idx,
      Except.map NDArrayBackedExtensionArray.ndarray
          (({ a with validate_fill_value := f }).take idx false fv2) =
        Except.map NDArrayBackedExtensionArray.ndarray (a.take idx false fv)) ∧
    (xs ≠ [] →
      ∃ z, xs[xs.length - 1]? = some z ∧
        a.take [-1] false fv = .ok (a.from_backing_data (.one [z]))) := by
  refine ⟨?_, ?_, ?_, ?_⟩
  · intro e idx h
    simp [NDArrayBackedExtensionArray.take, h]
  · intro F idx h hvalid
    obtain ⟨ys, hys, hlen, hget⟩ := gatherFill_ok xs F idx hvalid
    exact ⟨ys, by simp [NDArrayBackedExtensionArray.take, h, hbuf, hys], hlen, hget⟩
  · intro f fv2 idx
    have hb : ({ a with validate_fill_value := f } :
        NDArrayBackedExtensionArray v α).ndarray = a.ndarray := rfl
    simp only [NDArrayBackedExtensionArray.take, if_neg (by simp : ¬(false = true)), hb, hbuf]
    cases h : gatherNoFill xs idx with
    | error e => simp [h]
    | ok nd => simp [h, NDArrayBackedExtensionArray.from_backing_data, Except.map]
  · intro hne
    have hlen : 1 ≤ xs.length := by
      cases xs with
      | nil => exact absurd rfl hne
      | cons x t => simp
    have hcond : (0 : Int) ≤ -1 + (xs.length : Int) ∧
        -1 + (xs.length : Int) < (xs.length : Int) := by omega
    refine ⟨xs.get ⟨(-1 + (xs.length : Int)).toNat, by omega⟩, ?_, ?_⟩
    · rw [List.getElem?_eq_getElem (by omega)]
      simp only [List.get_eq_getElem, Option.some_inj]
      congr 1
      omega
    · simp only [NDArrayBackedExtensionArray.take, if_neg (by simp : ¬(false = true)), hbuf]
      have : gatherNoFill xs [-1] =
          .ok [xs.get ⟨(-1 + (xs.length : Int)).toNat, by omega⟩] := by
        simp only [gatherNoFill]
        rw [dif_pos]
        · rfl
        · constructor <;> omega
      rw [this]

/-- C1: Round-trip invariant: for every instance `a`, rebuilding an array
from the backing buffer of `a` through the factory method
`from_backing_data` yields an array that is `equals`-equal to `a` (the
NaN-equivalent element rule makes the comparison reflexive even at
missing markers). -/
theorem from_backing_data_roundtrip [DecidableEq α] (isNA : α → Bool)
    (a : NDArrayBackedExtensionArray v α) :
    a.equals isNA (a.from_backing_data a.ndarray) = true := by
  simp [NDArrayBackedExtensionArray.equals,
    NDArrayBackedExtensionArray.from_backing_data, arrayEquivalent_refl]

/-- C2: `equals` returns false whenever the concrete types differ, false
whenever the dtypes differ, and for two same-type same-dtype rank-1
arrays it returns true exactly when the buffers have equal length and at
every position either both elements are missing markers or they are
equal (NaN-equivalent comparison, not strict equality). -/
theorem equals_spec [DecidableEq α] (isNA : α → Bool)
    (a b : NDArrayBackedExtensionArray v α) (xs ys : List α)
    (ha : a.ndarray = .one xs) (hb : b.ndarray = .one ys) :
    (a.typeId ≠ b.typeId → a.equals isNA b = false) ∧
    (a.dtypeStr ≠ b.dtypeStr → a.equals isNA b = false) ∧
    (a.typeId = b.typeId → a.dtypeStr = b.dtypeStr →
      (a.equals isNA b = true ↔
        xs.length = ys.length ∧
          ∀ i (hx : i < xs.length) (hy : i < ys.length),
            (isNA (xs.get ⟨i, hx⟩) = true ∧ isNA (ys.get ⟨i, hy⟩) = true) ∨
              xs.get ⟨i, hx⟩ = ys.get ⟨i, hy⟩)) := by
  refine ⟨?_, ?_, ?_⟩
  · intro h
    simp [NDArrayBackedExtensionArray.equals, h]
  · intro h
    simp [NDArrayBackedExtensionArray.equals, h]
  · intro h1 h2
    simp [NDArrayBackedExtensionArray.equals, h1, h2, ha, hb,
      arrayEquivalent, listEquiv_eq_true_iff]

theorem mem_firstDedup {β : Type} [DecidableEq β] (x : β) :
    ∀ l : List β, x ∈ firstDedup l ↔ x ∈ l := by
  intro l
  induction l with
  | nil => simp [firstDedup]
  | cons a t ih =>
    simp only [firstDedup, List.mem_cons, List.mem_filter, ih]
    by_cases hx : x = a
    · simp [hx]
    · simp [hx]

theorem firstDedup_nodup {β : Type} [DecidableEq β] :
    ∀ l : List β, (firstDedup l).Nodup := by
  intro l
  induction l with
  | nil => simp [firstDedup]
  | cons a t ih =>
    simp only [firstDedup, List.nodup_cons]
    constructor
    · intro hmem
      have := (List.mem_filter.mp hmem).2
      simp at this
    · exact ih.filter _

theorem firstDedup_constant {β : Type} [DecidableEq β] (d : β) :
    ∀ l : List β, (∀ x ∈ l, x = d) → l ≠ [] → firstDedup l = [d] := by
  intro l
  induction l with
  | nil => intro _ h; exact absurd rfl h
  | cons a t _ =>
    intro hall _
    have ha : a = d := hall a (by simp)
    subst ha
    simp only [firstDedup, List.cons.injEq, true_and]
    rw [List.filter_eq_nil_iff]
    intro x hx
    have hxt : x ∈ t := (mem_firstDedup x t).mp hx
    have := hall x (List.mem_cons_of_mem _ hxt)
    simp [this]

/-- C4: `_concat_same_type`: whenever two parts report different dtype
identity strings the call fails with the dtype-mismatch error carrying
exactly the set of distinct dtype identity strings of the parts (both
offending identities included, no duplicates); when every part reports
the first part's dtype identity string (and, here, every backing buffer
is rank 1), the raw buffers are concatenated along axis 0 and wrapped
through the first part's factory method. -/
theorem concat_same_type_spec [DecidableEq α]
    (parts : List (NDArrayBackedExtensionArray v α))
    (p : NDArrayBackedExtensionArray v α)
    (rest : List (NDArrayBackedExtensionArray v α)) (hp : parts = p :: rest) :
    (∀ q ∈ parts, ∀ r ∈ parts, q.dtypeStr ≠ r.dtypeStr →
      ∃ ds, concat_same_type parts = .error (.dtypeMismatch ds) ∧
        q.dtypeStr ∈ ds ∧ r.dtypeStr ∈ ds ∧ ds.Nodup ∧
        (∀ s, s ∈ ds ↔ ∃ t ∈ parts, t.dtypeStr = s)) ∧
    ((∀ q ∈ parts, q.dtypeStr = p.dtypeStr) →
      (∀ q ∈ parts, q.ndarray.isRank1 = true) →
      concat_same_type parts =
        .ok (p.from_backing_data
          (.one (parts.map fun q => q.ndarray.rank1Data).flatten))) := by
  subst hp
  constructor
  · intro q hq r hr hqr
    set l := (p :: rest).map NDArrayBackedExtensionArray.dtypeStr with hl
    have hqmem : q.dtypeStr ∈ firstDedup l :=
      (mem_firstDedup _ _).mpr (List.mem_map_of_mem _ hq)
    have hrmem : r.dtypeStr ∈ firstDedup l :=
      (mem_firstDedup _ _).mpr (List.mem_map_of_mem _ hr)
    have hlen : (firstDedup l).length ≠ 1 := by
      intro hone
      obtain ⟨d, hd⟩ := List.length_eq_one.mp hone
      rw [hd] at hqmem hrmem
      simp only [List.mem_singleton] at hqmem hrmem
      exact hqr (hqmem.trans hrmem.symm)
    refine ⟨firstDedup l, ?_, hqmem, hrmem, firstDedup_nodup l, ?_⟩
    · simp only [concat_same_type, if_neg hlen]
    · intro s
      rw [mem_firstDedup, hl, List.mem_map]
  · intro hsame hrank
    have hconst : ∀ s ∈ (p :: rest).map NDArrayBackedExtensionArray.dtypeStr,
        s = p.dtypeStr := by
      intro s hs
      obtain ⟨t, ht, hts⟩ := List.mem_map.mp hs
      exact hts ▸ hsame t ht
    have hdt : firstDedup ((p :: rest).map NDArrayBackedExtensionArray.dtypeStr)
        = [p.dtypeStr] :=
      firstDedup_constant _ _ hconst (by simp)
    have hall : ((p :: rest).map NDArrayBackedExtensionArray.ndarray).all
        NDArray.isRank1 = true := by
      rw [List.all_eq_true]
      intro b hb
      obtain ⟨t, ht, htb⟩ := List.mem_map.mp hb
      exact htb ▸ hrank t ht
    simp only [concat_same_type, hdt, List.length_singleton, if_pos rfl,
      concatBufs, if_pos hall, List.map_map]
    rfl

/-- C5 counterexample: on `exBadFillHook` the fill-value hook
(`_validate_fill_value`) rejects the value 5 and the missing mask is
empty, yet `fillna(value=5)` succeeds and returns the unmutated copy —
the eager validation goes through the setitem hook, not the fill-value
hook, so the claim as stated fails on the code. -/
theorem fillna_fill_hook_counterexample :
    exBadFillHook.validate_fill_value 5 = .error "TypeError: invalid fill" ∧
    NDArray.anyElem exNoNA exBadFillHook.ndarray = false ∧
    exBadFillHook.fillna exNoNA 5 = .ok exBadFillHook :=
  ⟨rfl, rfl, rfl⟩

/-- C5 (amended): `fillna(value=v)` on an array whose missing mask has no
`True` entry still eagerly validates `v`, but through the write-value
hook `_validate_setitem_value`: an invalid value raises that hook's type
error even though no element would be overwritten, and a valid value
returns an unmutated copy. -/
theorem fillna_eager_validation (isNA : α → Bool)
    (a : NDArrayBackedExtensionArray v α) (value : v)
    (hmask : NDArray.anyElem isNA a.ndarray = false) :
    (∀ e, a.validate_setitem_value value = .error e →
      a.fillna isNA value = .error e) ∧
    (∀ x, a.validate_setitem_value value = .ok x →
      a.fillna isNA value = .ok a) := by
  constructor <;> intro w h <;>
    simp [NDArrayBackedExtensionArray.fillna, hmask, h]

theorem fillna_eager_validation_witness :
    NDArray.anyElem exNoNA exBadFillHook.ndarray = false ∧
    exBadFillHook.fillna exNoNA 7 = .ok exBadFillHook :=
  ⟨rfl, (fillna_eager_validation exNoNA exBadFillHook 7 rfl).2 7 rfl⟩

theorem getIntWrap_nonneg {β : Type} (xs : List β) (i : Int) (h0 : 0 ≤ i)
    (h1 : i < (xs.length : Int)) :
    ∃ x, xs[i.toNat]? = some x ∧ getIntWrap xs i = .ok x := by
  refine ⟨xs.get ⟨i.toNat, by omega⟩, ?_, ?_⟩
  · rw [List.getElem?_eq_getElem (by omega)]
    simp [List.get_eq_getElem]
  · have hj : ¬(i < 0) := by omega
    simp only [getIntWrap, if_neg hj]
    rw [dif_pos ⟨by omega, by omega⟩]

/-- C7: the integer-key fast path of `__getitem__`: on a rank-1 array a
valid integer key returns the boxed domain scalar of the buffer element
at that position (a `scalar` result, no wrapped sub-array); on a rank-2
array it returns a wrapped sub-array of rank one lower, produced via the
factory method (same concrete type and dtype, buffer the selected
row). -/
theorem getitem_int_spec (a : NDArrayBackedExtensionArray v α) (key : Int)
    (hk : 0 ≤ key) :
    (∀ xs, a.ndarray = .one xs → key < (xs.length : Int) →
      ∃ x, xs[key.toNat]? = some x ∧
        a.getitem_int key = .ok (.scalar (a.box_func x))) ∧
    (∀ rows, a.ndarray = .two rows → key < (rows.length : Int) →
      ∃ r, rows[key.toNat]? = some r ∧
        ∃ b, a.getitem_int key = .ok (.subarray b) ∧
          b.typeId = a.typeId ∧ b.dtypeStr = a.dtypeStr ∧
          b.ndarray = .one r) := by
  constructor
  · intro xs hbuf hlt
    obtain ⟨x, hx, hw⟩ := getIntWrap_nonneg xs key hk hlt
    exact ⟨x, hx, by simp [NDArrayBackedExtensionArray.getitem_int, hbuf, hw]⟩
  · intro rows hbuf hlt
    obtain ⟨r, hr, hw⟩ := getIntWrap_nonneg rows key hk hlt
    refine ⟨r, hr, a.from_backing_data (.one r), ?_, rfl, rfl, rfl⟩
    simp [NDArrayBackedExtensionArray.getitem_int, hbuf, hw]

theorem getitem_int_spec_witness :
    (∃ x, ([10, 20, 30] : List Int)[(2 : Int).toNat]? = some x ∧
      (mkInt "int64" (.one [10, 20, 30])).getitem_int 2 =
        .ok (.scalar ((mkInt "int64" (.one [10, 20, 30])).box_func x))) ∧
    (∃ r, ([[1, 2], [3, 4]] : List (List Int))[(0 : Int).toNat]? = some r ∧
      ∃ b, (mkInt "int64" (.two [[1, 2], [3, 4]])).getitem_int 0 =
          .ok (.subarray b) ∧
        b.typeId = (mkInt "int64" (.two [[1, 2], [3, 4]])).typeId ∧
        b.dtypeStr = (mkInt "int64" (.two [[1, 2], [3, 4]])).dtypeStr ∧
        b.ndarray = .one r) :=
  ⟨(getitem_int_spec (mkInt "int64" (.one [10, 20, 30])) 2 (by decide)).1
      [10, 20, 30] rfl (by decide),
    (getitem_int_spec (mkInt "int64" (.two [[1, 2], [3, 4]])) 0 (by decide)).2
      [[1, 2], [3, 4]] rfl (by decide)⟩

/-- C10 counterexample: `ex2D` is a rank-2 array of shape (2, 1); its
length and its size are both 2, so length and size coincide for an array
that is not 1-D, refuting the claim that they coincide only for 1-D
arrays. -/
theorem len_size_counterexample :
    ex2D.ndim = 2 ∧ ex2D.len = 2 ∧ ex2D.size = 2 ∧ ex2D.len = ex2D.size :=
  ⟨rfl, rfl, rfl, rfl⟩

/-- C10 (amended): the length operation returns `shape[0]` and `size` the
total element count: for a 1-D array both equal the element count; for a
2-D array of shape (r, c) length is `r` and size is `r * c`, so they
differ whenever `r ≥ 1` and `c ≠ 1`, but coincide when `c = 1` (or
`r = 0`) — coincidence is not exclusive to 1-D arrays. -/
theorem len_size_spec (a : NDArrayBackedExtensionArray v α) :
    (∀ xs, a.ndarray = .one xs → a.len = xs.length ∧ a.size = xs.length) ∧
    (∀ rows r c, a.ndarray = .two rows → rows.length = r →
      (∀ row ∈ rows, row.length = c) →
      a.len = r ∧ a.size = r * c ∧
        (1 ≤ r → c ≠ 1 → a.len ≠ a.size)) := by
  constructor
  · intro xs hbuf
    simp [NDArrayBackedExtensionArray.len, NDArrayBackedExtensionArray.size,
      hbuf, NDArray.shape]
  · intro rows r c hbuf hr hc
    have hsize : a.size = r * c := by
      cases rows with
      | nil =>
        simp [NDArrayBackedExtensionArray.size, hbuf, NDArray.shape] at hr ⊢
        omega
      | cons row0 rtail =>
        have h0 : row0.length = c := hc row0 (by simp)
        simp [NDArrayBackedExtensionArray.size, hbuf, NDArray.shape, ← hr, h0,
          Nat.mul_comm]
    have hlen : a.len = r := by
      simp [NDArrayBackedExtensionArray.len, hbuf, NDArray.shape, hr]
    refine ⟨hlen, hsize, ?_⟩
    intro h1 hcne
    rw [hlen, hsize]
    intro heq
    have h2 : r * c = r * 1 := by
      rw [Nat.mul_one]
      exact heq.symm
    exact hcne (Nat.eq_of_mul_eq_mul_left (show 0 < r by omega) h2)

theorem len_size_spec_witness :
    (mkInt "int64" (.two [[1, 2, 3], [4, 5, 6]])).len = 2 ∧
    (mkInt "int64" (.two [[1, 2, 3], [4, 5, 6]])).size = 2 * 3 ∧
    (1 ≤ 2 → 3 ≠ 1 →
      (mkInt "int64" (.two [[1, 2, 3], [4, 5, 6]])).len ≠
        (mkInt "int64" (.two [[1, 2, 3], [4, 5, 6]])).size) :=
  (len_size_spec (mkInt "int64" (.two [[1, 2, 3], [4, 5, 6]]))).2
    [[1, 2, 3], [4, 5, 6]] 2 3 rfl rfl (by decide)

theorem shiftPrim_spec_nonneg {β : Type} (xs : List β) (p : Int) (F : β)
    (hp : 0 ≤ p) :
    (shiftPrim xs p F).length = xs.length ∧
    ∀ i : Nat, i < xs.length →
      (shiftPrim xs p F)[i]? =
        if (i : Int) < p then some F else xs[i - p.toNat]? := by
  have hdef : shiftPrim xs p F =
      List.replicate (min p.toNat xs.length) F ++
        xs.take (xs.length - min p.toNat xs.length) := by
    simp [shiftPrim, hp]
  set pm := min p.toNat xs.length with hpm
  constructor
  · rw [hdef]
    simp only [List.length_append, List.length_replicate, List.length_take]
    omega
  · intro i hi
    rw [hdef, List.getElem?_append, List.length_replicate]
    by_cases hip : i < pm
    · rw [if_pos hip, List.getElem?_replicate, if_pos hip,
        if_pos (show (i : Int) < p by omega)]
    · rw [if_neg hip, List.getElem?_take,
        if_pos (show i - pm < xs.length - pm by omega),
        if_neg (show ¬((i : Int) < p) by omega)]
      have he : i - pm = i - p.toNat := by omega
      rw [he]

theorem shiftPrim_spec_neg {β : Type} (xs : List β) (p : Int) (F : β)
    (hp : p < 0) :
    (shiftPrim xs p F).length = xs.length ∧
    ∀ i : Nat, i < xs.length →
      (shiftPrim xs p F)[i]? =
        if i + (-p).toNat < xs.length then xs[i + (-p).toNat]? else some F := by
  have hdef : shiftPrim xs p F =
      xs.drop (min (-p).toNat xs.length) ++
        List.replicate (min (-p).toNat xs.length) F := by
    simp only [shiftPrim, if_neg (show ¬(0 ≤ p) by omega)]
  set q := (-p).toNat with hq
  set qm := min q xs.length with hqm
  constructor
  · rw [hdef]
    simp only [List.length_append, List.length_replicate, List.length_drop]
    omega
  · intro i hi
    rw [hdef, List.getElem?_append, List.length_drop]
    by_cases hilt : i < xs.length - qm
    · rw [if_pos hilt, List.getElem?_drop,
        if_pos (show i + q < xs.length by omega)]
      have he : qm + i = i + q := by omega
      rw [he]
    · rw [if_neg hilt, List.getElem?_replicate,
        if_pos (show i - (xs.length - qm) < qm by omega),
        if_neg (show ¬(i + q < xs.length) by omega)]

/-- C8: `shift`: the fill value is validated via the fill-value hook
(whose type error aborts the call); with a validated fill value `F`,
positive `periods` displaces elements toward higher indices, filling the
vacated leading positions with `F` (on `[a,b,c,d]`, `periods = 1` yields
`[F,a,b,c]`), and negative `periods` displaces toward lower indices,
filling the vacated trailing positions (on `[a,b,c,d]`, `periods = -1`
yields `[b,c,d,F]`). -/
theorem shift_spec (a : NDArrayBackedExtensionArray v α) (xs : List α)
    (hbuf : a.ndarray = .one xs) (fill_value : v) :
    (∀ e p, a.validate_fill_value fill_value = .error e →
      a.shift p fill_value = .error e) ∧
    (∀ F p, a.validate_fill_value fill_value = .ok F → 0 ≤ p →
      ∃ ys, a.shift p fill_value = .ok (a.from_backing_data (.one ys)) ∧
        ys.length = xs.length ∧
        ∀ i : Nat, i < xs.length →
          ys[i]? = if (i : Int) < p then some F else xs[i - p.toNat]?) ∧
    (∀ F p, a.validate_fill_value fill_value = .ok F → p < 0 →
      ∃ ys, a.shift p fill_value = .ok (a.from_backing_data (.one ys)) ∧
        ys.length = xs.length ∧
        ∀ i : Nat, i < xs.length →
          ys[i]? =
            if i + (-p).toNat < xs.length then xs[i + (-p).toNat]?
            else some F) := by
  refine ⟨?_, ?_, ?_⟩
  · intro e p h
    simp [NDArrayBackedExtensionArray.shift, h]
  · intro F p h hp
    exact ⟨shiftPrim xs p F,
      by simp [NDArrayBackedExtensionArray.shift, h, hbuf],
      (shiftPrim_spec_nonneg xs p F hp).1, (shiftPrim_spec_nonneg xs p F hp).2⟩
  · intro F p h hp
    exact ⟨shiftPrim xs p F,
      by simp [NDArrayBackedExtensionArray.shift, h, hbuf],
      (shiftPrim_spec_neg xs p F hp).1, (shiftPrim_spec_neg xs p F hp).2⟩

theorem shift_spec_witness :
    (mkInt "int64" (.one [10, 20, 30, 40])).validate_fill_value 7 = .ok 7 ∧
    (∃ ys, (mkInt "int64" (.one [10, 20, 30, 40])).shift 1 7 =
        .ok ((mkInt "int64" (.one [10, 20, 30, 40])).from_backing_data (.one ys)) ∧
      ys.length = ([10, 20, 30, 40] : List Int).length ∧
      ∀ i : Nat, i < ([10, 20, 30, 40] : List Int).length →
        ys[i]? = if (i : Int) < 1 then some 7
          else ([10, 20, 30, 40] : List Int)[i - (1 : Int).toNat]?) :=
  ⟨rfl, (shift_spec (mkInt "int64" (.one [10, 20, 30, 40])) [10, 20, 30, 40]
      rfl 7).2.1 7 1 rfl (by decide)⟩

theorem map_fst_pairs {γ : Type} (l : List γ) (c : γ → Nat) :
    (l.map fun x => (x, c x)).map Prod.fst = l := by
  induction l with
  | nil => rfl
  | cons e t ih => simp [ih]

theorem map_snd_pairs {γ : Type} (l : List γ) (c : γ → Nat) :
    (l.map fun x => (x, c x)).map Prod.snd = l.map c := by
  induction l with
  | nil => rfl
  | cons e t ih => simp [ih]

theorem firstDedup_pairwise_indexOf {β : Type} [DecidableEq β] :
    ∀ l : List β, (firstDedup l).Pairwise
      (fun x y => l.indexOf x < l.indexOf y) := by
  intro l
  induction l with
  | nil => simp [firstDedup]
  | cons a t ih =>
    simp only [firstDedup]
    rw [List.pairwise_cons]
    constructor
    · intro y hy
      have hyne : y ≠ a := by
        have := (List.mem_filter.mp hy).2
        simpa using this
      rw [List.indexOf_cons_self, List.indexOf_cons_ne _ (Ne.symm hyne)]
      exact Nat.succ_pos _
    · refine (ih.filter _).imp_of_mem ?_
      intro x y hx hy hr
      have hxne : x ≠ a := by simpa using (List.mem_filter.mp hx).2
      have hyne : y ≠ a := by simpa using (List.mem_filter.mp hy).2
      rw [List.indexOf_cons_ne _ (Ne.symm hxne),
        List.indexOf_cons_ne _ (Ne.symm hyne)]
      omega

/-- C9: `value_counts`: on a rank-2 array it raises the not-implemented
error; on a rank-1 array with `dropna` the missing entries are excluded
first, and the result pairs one count with each distinct remaining value
(no duplicates, every non-missing buffer value covered, counts equal to
the occurrence counts among the non-missing entries) in first-seen
(discovery) order of the filtered buffer, the value array being built
via the factory method so it has the same concrete type and dtype as the
input. -/
theorem value_counts_spec [DecidableEq α] (isNA : α → Bool)
    (a : NDArrayBackedExtensionArray v α) :
    (∀ rows, a.ndarray = .two rows →
      a.value_counts isNA true = .error "NotImplementedError") ∧
    (∀ xs, a.ndarray = .one xs →
      ∃ ws counts,
        a.value_counts isNA true = .ok (a.from_backing_data (.one ws), counts) ∧
        ws.Nodup ∧
        (∀ x, x ∈ ws ↔ x ∈ xs ∧ isNA x = false) ∧
        counts = ws.map (fun x => (xs.filter fun y => !isNA y).count x) ∧
        ws.Pairwise (fun x y =>
          (xs.filter fun z => !isNA z).indexOf x <
            (xs.filter fun z => !isNA z).indexOf y)) := by
  constructor
  · intro rows hbuf
    simp [NDArrayBackedExtensionArray.value_counts, hbuf]
  · intro xs hbuf
    refine ⟨firstDedup (xs.filter fun x => !isNA x),
      (firstDedup (xs.filter fun x => !isNA x)).map
        (fun x => (xs.filter fun y => !isNA y).count x), ?_, ?_, ?_, rfl, ?_⟩
    · simp only [NDArrayBackedExtensionArray.value_counts, hbuf, ite_true,
        valueCountPrim, List.filter_filter, Bool.and_self, map_fst_pairs,
        map_snd_pairs]
    · exact firstDedup_nodup _
    · intro x
      rw [mem_firstDedup, List.mem_filter]
      simp
    · exact firstDedup_pairwise_indexOf _

theorem value_counts_spec_witness :
    ∃ ws counts,
      (mkInt "int64" (.one [1, 1, 2, -1, 3])).value_counts exIsNA true =
        .ok ((mkInt "int64" (.one [1, 1, 2, -1, 3])).from_backing_data
          (.one ws), counts) ∧
      ws.Nodup ∧
      (∀ x, x ∈ ws ↔ x ∈ ([1, 1, 2, -1, 3] : List Int) ∧ exIsNA x = false) ∧
      counts = ws.map
        (fun x => (([1, 1, 2, -1, 3] : List Int).filter fun y => !exIsNA y).count x) ∧
      ws.Pairwise (fun x y =>
        (([1, 1, 2, -1, 3] : List Int).filter fun z => !exIsNA z).indexOf x <
          (([1, 1, 2, -1, 3] : List Int).filter fun z => !exIsNA z).indexOf y) :=
  (value_counts_spec exIsNA (mkInt "int64" (.one [1, 1, 2, -1, 3]))).2
    [1, 1, 2, -1, 3] rfl

theorem equals_spec_witness :
    (mkInt "int64" (.one [5, -1])).typeId = (mkInt "int64" (.one [5, -2])).typeId ∧
    (mkInt "int64" (.one [5, -1])).dtypeStr =
      (mkInt "int64" (.one [5, -2])).dtypeStr ∧
    (mkInt "int64" (.one [5, -1])).equals exNegNA
      (mkInt "int64" (.one [5, -2])) = true :=
  ⟨rfl, rfl,
    ((equals_spec exNegNA (mkInt "int64" (.one [5, -1]))
        (mkInt "int64" (.one [5, -2])) [5, -1] [5, -2] rfl rfl).2.2
      rfl rfl).mpr (by decide)⟩

theorem take_spec_witness :
    ∃ z, ([10, 20, 30, 40] : List Int)[([10, 20, 30, 40] : List Int).length - 1]? =
        some z ∧
      (mkInt "int64" (.one [10, 20, 30, 40])).take [-1] false 7 =
        .ok ((mkInt "int64" (.one [10, 20, 30, 40])).from_backing_data
          (.one [z])) :=
  (take_spec (mkInt "int64" (.one [10, 20, 30, 40])) [10, 20, 30, 40]
      rfl 7).2.2.2 (by decide)

theorem concat_same_type_spec_witness :
    ∃ ds, concat_same_type
        [mkInt "int64" (.one [1, 2]), mkInt "float64" (.one [3])] =
        .error (.dtypeMismatch ds) ∧
      (mkInt "int64" (.one [1, 2])).dtypeStr ∈ ds ∧
      (mkInt "float64" (.one [3])).dtypeStr ∈ ds ∧ ds.Nodup ∧
      (∀ s, s ∈ ds ↔
        ∃ t ∈ [mkInt "int64" (.one [1, 2]), mkInt "float64" (.one [3])],
          t.dtypeStr = s) :=
  (concat_same_type_spec
      [mkInt "int64" (.one [1, 2]), mkInt "float64" (.one [3])]
      (mkInt "int64" (.one [1, 2])) [mkInt "float64" (.one [3])] rfl).1
    (mkInt "int64" (.one [1, 2])) (List.mem_cons_self _ _)
    (mkInt "float64" (.one [3]))
    (List.mem_cons_of_mem _ (List.mem_cons_self _ _))
    (by decide)

end Pandas
